import Mathlib

/-!
Verification of the ReadNext crawler (src/crawl.py) against its
natural-language specification.

The crawler is embedded shallowly: pure helpers of the Python file become
Lean functions over `List Char` / `String`; the network collaborators
(HTTP GET/HEAD, feed parsing, screenshot capture) become an oracle record
`Net`, and every function that performs network activity also returns the
ordered list of network calls it issued (a `List Call`), so temporal
claims about which URLs reach the network can be stated and proved.

Dates are modelled as epoch seconds (`Int`): `feedparser` hands the code
pre-parsed `struct_time` values, which the code converts with
`mktime`/`fromtimestamp`; a field is either absent, present but failing
that conversion, or convertible to an instant.
-/

set_option autoImplicit false

namespace ReadNext

/-! ## Python primitive models: whitespace, strip, lower, substring -/

/-- Whitespace characters of Python's `str.strip` / `\s` (ASCII range). -/
def pyWS (c : Char) : Bool :=
  c = ' ' || c = '\t' || c = '\n' || c = '\r' || c = '\x0b' || c = '\x0c'

/-- Python `str.strip()` on a character list: drop whitespace at both ends. -/
def stripL (l : List Char) : List Char :=
  ((l.dropWhile pyWS).reverse.dropWhile pyWS).reverse

/-- Python `str.strip()` on strings. -/
def pyStrip (s : String) : String := String.mk (stripL s.data)

/-- Python `str.lower()` (ASCII model, enough for content-type matching). -/
def pyLower (s : String) : String := String.mk (s.data.map Char.toLower)

/-- Python `needle in hay` substring test. -/
def containsSub (needle hay : String) : Bool := decide (needle.data <:+: hay.data)

/-- Python `s.startswith(pre)`. -/
def startsWithL (pre s : String) : Bool := pre.data.isPrefixOf s.data

/-- Python `s.rstrip("/")` on a character list: drop trailing slashes. -/
def rstripSlashL (l : List Char) : List Char :=
  (l.reverse.dropWhile (fun c => c = '/')).reverse

/-- Python `url.rstrip("/")`. -/
def rstripSlash (s : String) : String := String.mk (rstripSlashL s.data)

/-! ## SourceList: parse_links_file (crawl.py lines 45-68) -/

/-- A crawl target: `{name, urls}` dict of `parse_links_file`. -/
structure Source where
  name : String
  urls : List String
  deriving DecidableEq, Repr

/-- Python `line.startswith("http://") or line.startswith("https://")`. -/
def isUrlLine (l : String) : Bool := startsWithL "http://" l || startsWithL "https://" l

/-- Flush of the `current` accumulator: emitted only when it exists and has
at least one URL (crawl.py lines 54-55 and 65-66). -/
def emitCurrent : Option Source → List Source
  | some s => if s.urls.isEmpty then [] else [s]
  | none => []

/-- The line loop of `parse_links_file` (crawl.py lines 51-66), with the
`current` accumulator made explicit.  A blank line flushes `current`; a URL
line appends to it (starting a nameless source if none is open); any other
line starts a fresh source named by that line, replacing `current`. -/
def plLoop : Option Source → List String → List Source
  | cur, [] => emitCurrent cur
  | cur, l :: rest =>
    if l = "" then emitCurrent cur ++ plLoop none rest
    else if isUrlLine l then
      match cur with
      | some s => plLoop (some { s with urls := s.urls ++ [l] }) rest
      | none => plLoop (some { name := "", urls := [l] }) rest
    else plLoop (some { name := l, urls := [] }) rest

/-- `parse_links_file` (crawl.py lines 45-68) on the file's list of raw
lines: each line is stripped, then fed to the accumulator loop. -/
def parse_links_file (lines : List String) : List Source :=
  plLoop none (lines.map pyStrip)

/-! ## Block structure of the catalog (for the SourceList claim) -/

/-- Split a line list into the blocks delimited by blank lines. -/
def splitBlank : List String → List (List String)
  | [] => [[]]
  | l :: ls =>
    if l = "" then [] :: splitBlank ls
    else
      match splitBlank ls with
      | [] => [[l]]
      | b :: bs => (l :: b) :: bs

/-- One step of the in-block accumulator: a URL line extends the current
source (opening a nameless one if needed); any other line replaces the
current source with a fresh one named by the line. -/
def blockStep (cur : Option Source) (l : String) : Option Source :=
  if isUrlLine l then
    match cur with
    | some s => some { s with urls := s.urls ++ [l] }
    | none => some { name := "", urls := [l] }
  else some { name := l, urls := [] }

/-- The source a block contributes: fold the block's lines, keep the final
accumulator only if it gathered at least one URL.  A later non-URL line
discards whatever the block had accumulated before it. -/
def blockSource (b : List String) : Option Source :=
  match b.foldl blockStep none with
  | some s => if s.urls.isEmpty then none else some s
  | none => none

/-- Blocks consumed in order, threading the accumulator into the first
block (the flush between blocks and at end of input is `emitCurrent`). -/
def consumeBlocks (cur : Option Source) : List (List String) → List Source
  | [] => []
  | b :: bs => emitCurrent (b.foldl blockStep cur) ++ consumeBlocks none bs

theorem splitBlank_ne_nil (ls : List String) : splitBlank ls ≠ [] := by
  cases ls with
  | nil => simp [splitBlank]
  | cons l ls =>
    simp only [splitBlank]
    split
    · simp
    · cases h : splitBlank ls <;> simp

theorem plLoop_step (cur : Option Source) (l : String) (rest : List String)
    (hb : l ≠ "") : plLoop cur (l :: rest) = plLoop (blockStep cur l) rest := by
  by_cases hu : isUrlLine l <;> cases cur <;> simp [plLoop, blockStep, hb, hu]

theorem plLoop_eq_consumeBlocks (ls : List String) (cur : Option Source) :
    plLoop cur ls = consumeBlocks cur (splitBlank ls) := by
  induction ls generalizing cur with
  | nil => simp [plLoop, splitBlank, consumeBlocks, List.foldl]
  | cons l rest ih =>
    by_cases hb : l = ""
    · subst hb
      rw [show plLoop cur ("" :: rest) = emitCurrent cur ++ plLoop none rest from by
        simp [plLoop]]
      rw [show splitBlank ("" :: rest) = [] :: splitBlank rest from by simp [splitBlank]]
      rw [ih]
      simp [consumeBlocks, List.foldl]
    · cases hs : splitBlank rest with
      | nil => exact absurd hs (splitBlank_ne_nil rest)
      | cons b bs =>
        rw [plLoop_step cur l rest hb, ih, hs]
        rw [show splitBlank (l :: rest) = (l :: b) :: bs from by simp [splitBlank, hb, hs]]
        simp [consumeBlocks, List.foldl_cons]

theorem consumeBlocks_none_eq_filterMap (bs : List (List String)) :
    consumeBlocks none bs = bs.filterMap blockSource := by
  induction bs with
  | nil => rfl
  | cons b rest ih =>
    simp only [consumeBlocks, List.filterMap_cons, ih, blockSource]
    cases h : b.foldl blockStep none with
    | none => simp [emitCurrent]
    | some s =>
      by_cases he : s.urls.isEmpty <;> simp [emitCurrent, he]

theorem mem_emitCurrent {cur : Option Source} {s : Source}
    (h : s ∈ emitCurrent cur) : cur = some s := by
  cases cur with
  | none => cases h
  | some s0 =>
    simp only [emitCurrent] at h
    by_cases he : s0.urls.isEmpty
    · rw [if_pos he] at h; cases h
    · rw [if_neg he, List.mem_singleton] at h
      rw [h]

/-- Every URL stored in a parsed source is a line satisfying `isUrlLine`. -/
theorem plLoop_urls_url (ls : List String) (cur : Option Source)
    (hcur : ∀ s, cur = some s → ∀ u ∈ s.urls, isUrlLine u = true) :
    ∀ s ∈ plLoop cur ls, ∀ u ∈ s.urls, isUrlLine u = true := by
  induction ls generalizing cur with
  | nil =>
    intro s hs
    exact hcur s (mem_emitCurrent hs)
  | cons l rest ih =>
    intro s hs
    by_cases hb : l = ""
    · subst hb
      rw [show plLoop cur ("" :: rest) = emitCurrent cur ++ plLoop none rest from by
        simp [plLoop]] at hs
      rcases List.mem_append.mp hs with h | h
      · exact hcur s (mem_emitCurrent h)
      · exact ih none (by intro t ht; cases ht) s h
    · rw [plLoop_step cur l rest hb] at hs
      refine ih (blockStep cur l) ?_ s hs
      intro t ht u hu2
      by_cases hu : isUrlLine l
      · cases cur with
        | some s0 =>
          simp only [blockStep, hu, if_true, Option.some.injEq] at ht
          rw [← ht] at hu2
          simp only [List.mem_append, List.mem_singleton] at hu2
          rcases hu2 with hu2 | hu2
          · exact hcur s0 rfl u hu2
          · rw [hu2]; exact hu
        | none =>
          simp only [blockStep, hu, if_true, Option.some.injEq] at ht
          rw [← ht] at hu2
          simp only [List.mem_singleton] at hu2
          rw [hu2]; exact hu
      · simp only [blockStep, hu, Bool.false_eq_true, if_false, Option.some.injEq] at ht
        rw [← ht] at hu2
        simp at hu2

theorem parse_links_file_urls (lines : List String) (s : Source)
    (hs : s ∈ parse_links_file lines) : ∀ u ∈ s.urls, isUrlLine u = true :=
  plLoop_urls_url (lines.map pyStrip) none (by intro t ht; cases ht) s hs

/-- Claim C2, counterexample.  On the single block
`["A", "http://a", "B", "http://b"]` the code does NOT name the source after
the first non-URL line of the block (`"A"`) with both URLs attached: the
later non-URL line `"B"` replaces the accumulated source, so the result is
one source named `"B"` holding only `"http://b"`. -/
theorem claim_C2_counterexample :
    parse_links_file ["A", "http://a", "B", "http://b"] =
      [{ name := "B", urls := ["http://b"] }] ∧
    parse_links_file ["A", "http://a", "B", "http://b"] ≠
      [{ name := "A", urls := ["http://a", "http://b"] }] := by
  constructor
  · rfl
  · decide

/-- Claim C2, amended.  `parse_links_file` groups the stripped lines into
blocks separated by blank lines; within a block, each non-URL line starts a
fresh source named by that line, silently discarding anything the block had
accumulated before it, and each URL line attaches to the source currently
open (a nameless one is opened when the block starts with a URL); the block
contributes its final accumulated source, and only when that source holds
at least one URL. -/
theorem claim_C2 (lines : List String) :
    parse_links_file lines =
      (splitBlank (lines.map pyStrip)).filterMap blockSource := by
  rw [parse_links_file, plLoop_eq_consumeBlocks, consumeBlocks_none_eq_filterMap]

/-! ## Summary cleaning: _clean_summary (crawl.py lines 189-195)

Modelled from the spec: the HTML text-extraction collaborator
(`BeautifulSoup(...).get_text(separator=" ")`, an out-of-scope primitive
per spec section 1) is embedded as a scanner that drops every `<`...`>`
tag and stands a separator space in its place; since `_clean_summary`
collapses whitespace runs afterwards, this agrees with the collaborator
on the separator placement. -/

/-- Tag-dropping scanner: the flag records being inside a `<`...`>` tag. -/
def stripTagsAux : Bool → List Char → List Char
  | _, [] => []
  | false, c :: rest =>
    if c = '<' then ' ' :: stripTagsAux true rest else c :: stripTagsAux false rest
  | true, c :: rest =>
    if c = '>' then stripTagsAux false rest else stripTagsAux true rest

/-- Markup removal with a separator space at each tag. -/
def stripTags (l : List Char) : List Char := stripTagsAux false l

/-- Python `re.sub(r"\s+", " ", s)`: collapse every whitespace run to one
space.  The flag records whether the previous character was whitespace. -/
def collapseAux : Bool → List Char → List Char
  | _, [] => []
  | prevWS, c :: rest =>
    if pyWS c then
      (if prevWS then collapseAux true rest else ' ' :: collapseAux true rest)
    else c :: collapseAux false rest

/-- The cleaned text of `_clean_summary` before truncation (crawl.py lines
191-192): strip markup, trim, collapse whitespace runs. -/
def cleanedText (s : String) : List Char := collapseAux false (stripL (stripTags s.data))

/-- `_clean_summary` (crawl.py lines 189-195): clean, then truncate to 300
characters plus `"..."` when longer than 300. -/
def clean_summary (s : String) : String :=
  let clean := cleanedText s
  if 300 < clean.length then String.mk (clean.take 300 ++ ['.', '.', '.'])
  else String.mk clean

/-- No two adjacent whitespace characters. -/
def noWSPair (a b : Char) : Prop := ¬(pyWS a = true ∧ pyWS b = true)

instance (a b : Char) : Decidable (noWSPair a b) :=
  inferInstanceAs (Decidable ¬(pyWS a = true ∧ pyWS b = true))

theorem stripTagsAux_no_lt (l : List Char) : ∀ m : Bool, '<' ∉ stripTagsAux m l := by
  induction l with
  | nil => intro m; cases m <;> simp [stripTagsAux]
  | cons c rest ih =>
    intro m
    cases m with
    | false =>
      simp only [stripTagsAux]
      by_cases hc : c = '<'
      · rw [if_pos hc]
        intro h
        rcases List.mem_cons.mp h with h | h
        · cases h
        · exact ih true h
      · rw [if_neg hc]
        intro h
        rcases List.mem_cons.mp h with h | h
        · exact hc h.symm
        · exact ih false h
    | true =>
      simp only [stripTagsAux]
      by_cases hc : c = '>'
      · rw [if_pos hc]; exact ih false
      · rw [if_neg hc]; exact ih true

theorem mem_collapseAux {c : Char} (l : List Char) :
    ∀ m : Bool, c ∈ collapseAux m l → c = ' ' ∨ c ∈ l := by
  induction l with
  | nil => intro m h; cases m <;> simp [collapseAux] at h
  | cons a rest ih =>
    intro m h
    simp only [collapseAux] at h
    by_cases ha : pyWS a
    · rw [if_pos ha] at h
      cases m with
      | true =>
        rcases ih true h with h | h
        · exact Or.inl h
        · exact Or.inr (List.mem_cons_of_mem a h)
      | false =>
        rw [if_neg (by simp)] at h
        rcases List.mem_cons.mp h with h | h
        · exact Or.inl h
        · rcases ih true h with h | h
          · exact Or.inl h
          · exact Or.inr (List.mem_cons_of_mem a h)
    · rw [if_neg ha] at h
      rcases List.mem_cons.mp h with h | h
      · exact Or.inr (h ▸ List.mem_cons_self a rest)
      · rcases ih false h with h | h
        · exact Or.inl h
        · exact Or.inr (List.mem_cons_of_mem a h)

theorem collapseAux_true_head (l : List Char) :
    ∀ c, (collapseAux true l).head? = some c → pyWS c = false := by
  induction l with
  | nil => intro c h; simp [collapseAux] at h
  | cons a rest ih =>
    intro c h
    simp only [collapseAux] at h
    by_cases ha : pyWS a
    · rw [if_pos ha, if_pos trivial] at h
      exact ih c h
    · rw [if_neg ha] at h
      simp only [List.head?_cons, Option.some.injEq] at h
      rw [← h]
      exact Bool.not_eq_true _ ▸ ha

theorem chain'_collapseAux (l : List Char) :
    ∀ m : Bool, List.Chain' noWSPair (collapseAux m l) := by
  induction l with
  | nil => intro m; simp [collapseAux]
  | cons a rest ih =>
    intro m
    simp only [collapseAux]
    by_cases ha : pyWS a
    · rw [if_pos ha]
      cases m with
      | true => exact ih true
      | false =>
        rw [if_neg (by simp)]
        rw [List.chain'_cons']
        refine ⟨?_, ih true⟩
        intro y hy
        intro hcon
        rw [collapseAux_true_head rest y hy] at hcon
        exact Bool.false_ne_true hcon.2
    · rw [if_neg ha]
      rw [List.chain'_cons']
      refine ⟨?_, ih false⟩
      intro y hy hcon
      exact ha hcon.1

theorem mem_stripL {c : Char} {l : List Char} (h : c ∈ stripL l) : c ∈ l := by
  unfold stripL at h
  rw [List.mem_reverse] at h
  have h2 := (List.dropWhile_sublist _).mem h
  rw [List.mem_reverse] at h2
  exact (List.dropWhile_sublist (l := l) pyWS).mem h2

theorem clean_summary_length (s : String) : (clean_summary s).length ≤ 303 := by
  unfold clean_summary
  by_cases h : 300 < (cleanedText s).length
  · rw [if_pos h]
    show (List.take 300 (cleanedText s) ++ ['.', '.', '.']).length ≤ 303
    rw [List.length_append, List.length_take]
    simp only [List.length_cons, List.length_nil]
    omega
  · rw [if_neg h]
    show (cleanedText s).length ≤ 303
    omega

theorem chain'_dots : List.Chain' noWSPair ['.', '.', '.'] := by
  simp only [List.chain'_cons, List.chain'_singleton, noWSPair, pyWS]
  decide

theorem clean_summary_chain (s : String) :
    List.Chain' noWSPair (clean_summary s).data := by
  unfold clean_summary
  by_cases h : 300 < (cleanedText s).length
  · rw [if_pos h]
    show List.Chain' noWSPair (List.take 300 (cleanedText s) ++ ['.', '.', '.'])
    rw [List.chain'_append]
    refine ⟨ List.Chain'.prefix (chain'_collapseAux _ false) ( List.take_prefix 300 _),
      chain'_dots, ?_⟩
    intro x hx y hy
    simp only [List.head?_cons, Option.mem_def, Option.some.injEq] at hy
    intro hcon
    rw [← hy] at hcon
    exact absurd hcon.2 (by decide)
  · rw [if_neg h]
    exact chain'_collapseAux _ false

theorem clean_summary_no_lt (s : String) : '<' ∉ (clean_summary s).data := by
  have base : '<' ∉ cleanedText s := by
    intro h
    rcases mem_collapseAux _ false h with h | h
    · cases h
    · exact stripTagsAux_no_lt s.data false (mem_stripL h)
  unfold clean_summary
  by_cases h : 300 < (cleanedText s).length
  · rw [if_pos h]
    show '<' ∉ List.take 300 (cleanedText s) ++ ['.', '.', '.']
    intro hm
    rcases List.mem_append.mp hm with hm | hm
    · exact base (List.take_subset _ _ hm)
    · simp at hm
  · rw [if_neg h]
    exact base

/-! ## Data model: feeds, entries, network oracle, call trace -/

/-- A raw feed entry as handed over by the `feedparser` collaborator.
`published_parsed` / `updated_parsed` are `none` when the attribute is
missing (or falsy), `some none` when present but rejected by
`mktime`/`fromtimestamp` (`ValueError`/`OverflowError`), and
`some (some t)` when convertible to the instant `t` (epoch seconds). -/
structure FeedEntryRaw where
  title : Option String
  link : Option String
  published_parsed : Option (Option Int)
  updated_parsed : Option (Option Int)
  summary : Option String
  deriving DecidableEq, Repr

/-- The `feedparser.parse` result: the bozo flag plus the entry list. -/
structure Feed where
  bozo : Bool
  entries : List FeedEntryRaw
  deriving DecidableEq, Repr

/-- A normalized output entry of `fetch_feed_entries` (the dict built at
crawl.py lines 179-184); the date is kept as an instant. -/
structure Entry where
  title : String
  url : String
  date : Option Int
  summary : String
  deriving DecidableEq, Repr

/-- An HTTP HEAD response: status code and `content-type` header. -/
structure HeadResp where
  status : Nat
  contentType : String
  deriving DecidableEq, Repr

/-- A `<link rel="alternate">` element of the fetched page, as produced by
the HTML-parsing collaborator: its `type` and `href` attributes. -/
structure LinkTag where
  ltype : Option String
  href : Option String
  deriving DecidableEq, Repr

/-- One network call issued by the crawler: an HTTP GET of a page, an HTTP
HEAD probe, a feed retrieval by `feedparser.parse`, or a screenshot
capture. -/
inductive Call where
  | get (url : String)
  | headReq (url : String)
  | feedReq (url : String)
  | shot (url : String)
  deriving DecidableEq, Repr

/-- The URL a call carries. -/
def Call.url : Call → String
  | .get u => u
  | .headReq u => u
  | .feedReq u => u
  | .shot u => u

/-- Whether a call is a feed retrieval (`feedparser.parse`). -/
def Call.isFeedReq : Call → Bool
  | .feedReq _ => true
  | _ => false

/-- The network collaborators, as deterministic oracles.  `get url` is
`none` on a request exception or non-2xx (`raise_for_status`), otherwise
the `<link rel="alternate">` tags of the parsed body.  `headReq` is `none`
on a request exception.  `feed` is the `feedparser.parse` result (it does
not raise).  `shot` is the screenshot path, `none` on capture failure or
missing Playwright. -/
structure Net where
  get : String → Option (List LinkTag)
  headReq : String → Option HeadResp
  feed : String → Feed
  shot : String → Option String

/-! ## EntryFilter: parse_feed_date and fetch_feed_entries
(crawl.py lines 154-186) -/

/-- The attribute loop of `parse_feed_date`: first convertible value wins;
a present-but-unconvertible attribute falls through to the next. -/
def firstGoodDate : List (Option (Option Int)) → Option Int
  | [] => none
  | none :: rest => firstGoodDate rest
  | some none :: rest => firstGoodDate rest
  | some (some d) :: _ => some d

/-- `parse_feed_date` (crawl.py lines 154-164): `published_parsed` first,
then `updated_parsed`. -/
def parse_feed_date (e : FeedEntryRaw) : Option Int :=
  firstGoodDate [e.published_parsed, e.updated_parsed]

/-- The output dict built for a kept entry (crawl.py lines 179-184). -/
def outputEntry (e : FeedEntryRaw) : Entry :=
  { title := e.title.getD "Untitled"
    url := e.link.getD ""
    date := parse_feed_date e
    summary := clean_summary (e.summary.getD "") }

/-- The entry loop of `fetch_feed_entries` (crawl.py lines 173-186): skip
an entry whose date is present and before the cutoff, keep the rest. -/
def feedEntriesLoop (cutoff : Int) : List FeedEntryRaw → List Entry
  | [] => []
  | e :: rest =>
    match parse_feed_date e with
    | some d =>
      if d < cutoff then feedEntriesLoop cutoff rest
      else outputEntry e :: feedEntriesLoop cutoff rest
    | none => outputEntry e :: feedEntriesLoop cutoff rest

/-- `fetch_feed_entries` (crawl.py lines 167-186): retrieve and parse the
feed (one network call), return `[]` for a bozo feed with no entries,
otherwise the filtered entries. -/
def fetch_feed_entries (net : Net) (feed_url : String) (cutoff : Int) :
    List Entry × List Call :=
  let feed := net.feed feed_url
  (if feed.bozo && feed.entries.isEmpty then [] else feedEntriesLoop cutoff feed.entries,
   [Call.feedReq feed_url])

/-- The claim's inclusion predicate, in the spec's words: an entry is kept
unless its derivable timestamp is present and strictly earlier than the
cutoff; an entry with no derivable timestamp is always kept. -/
def specIncludes (cutoff : Int) (e : FeedEntryRaw) : Bool :=
  match parse_feed_date e with
  | some d => !decide (d < cutoff)
  | none => true

theorem feedEntriesLoop_eq_filter (cutoff : Int) (l : List FeedEntryRaw) :
    feedEntriesLoop cutoff l = (l.filter (specIncludes cutoff)).map outputEntry := by
  induction l with
  | nil => rfl
  | cons e rest ih =>
    cases hd : parse_feed_date e with
    | some d =>
      by_cases hlt : d < cutoff
      · have h1 : feedEntriesLoop cutoff (e :: rest) = feedEntriesLoop cutoff rest := by
          simp [feedEntriesLoop, hd, hlt]
        have h2 : specIncludes cutoff e = false := by simp [specIncludes, hd, hlt]
        rw [h1, List.filter_cons, h2, ih]
        simp
      · have h1 : feedEntriesLoop cutoff (e :: rest) =
            outputEntry e :: feedEntriesLoop cutoff rest := by
          simp [feedEntriesLoop, hd, hlt]
        have h2 : specIncludes cutoff e = true := by simp [specIncludes, hd, hlt]
        rw [h1, List.filter_cons, h2, ih]
        simp
    | none =>
      have h1 : feedEntriesLoop cutoff (e :: rest) =
          outputEntry e :: feedEntriesLoop cutoff rest := by
        simp [feedEntriesLoop, hd]
      have h2 : specIncludes cutoff e = true := by simp [specIncludes, hd]
      rw [h1, List.filter_cons, h2, ih]
      simp

/-- Claim C1: for every cutoff and feed, `fetch_feed_entries` keeps exactly
the entries whose derived timestamp (published first, then updated, an
unconvertible field treated as absent) is NOT both present and strictly
earlier than the cutoff; entries with no derivable timestamp are always
kept, regardless of the cutoff. -/
theorem claim_C1 (net : Net) (feed_url : String) (cutoff : Int) :
    (fetch_feed_entries net feed_url cutoff).1 =
      ((net.feed feed_url).entries.filter (specIncludes cutoff)).map outputEntry := by
  unfold fetch_feed_entries
  by_cases hb : (net.feed feed_url).bozo && (net.feed feed_url).entries.isEmpty
  · have he : (net.feed feed_url).entries = [] :=
      List.isEmpty_iff.mp (Bool.and_elim_right hb)
    simp [hb, he, feedEntriesLoop]
  · simp only [hb, Bool.false_eq_true, if_false]
    exact feedEntriesLoop_eq_filter cutoff _

theorem mem_feedEntriesLoop {cutoff : Int} {l : List FeedEntryRaw} {e : Entry}
    (h : e ∈ feedEntriesLoop cutoff l) : ∃ raw ∈ l, e = outputEntry raw := by
  rw [feedEntriesLoop_eq_filter] at h
  rcases List.mem_map.mp h with ⟨raw, hraw, hout⟩
  exact ⟨raw, List.mem_of_mem_filter hraw, hout.symm⟩

/-- A raw feed entry carrying the long summary
`"<p>Hello   world</p>" + "x" * 400`. -/
def rawC5 : FeedEntryRaw :=
  { title := some "T"
    link := some "http://x/"
    published_parsed := some (some 5)
    updated_parsed := none
    summary := some (String.mk ("<p>Hello   world</p>".data ++
      List.replicate 400 'x')) }

/-- A tiny feed oracle whose single entry is `rawC5`. -/
def netC5 : Net :=
  { get := fun _ => none
    headReq := fun _ => none
    feed := fun _ => { bozo := false, entries := [rawC5] }
    shot := fun _ => none }

set_option maxRecDepth 4096 in
/-- Claim C5, counterexample.  An entry produced by the entry filter can
carry a summary of 303 characters (300 plus the 3-character ellipsis
marker), exceeding the claimed 300-character bound. -/
theorem claim_C5_counterexample :
    ((fetch_feed_entries netC5 "http://x/feed" 0).1.map fun e => e.summary.length)
      = [303] ∧ ¬(303 ≤ 300) := by
  constructor
  · decide
  · decide

/-- Claim C5, amended.  Every entry produced by the entry filter has a
summary of at most 303 characters (at most 300 characters of cleaned text
plus the 3-character ellipsis marker when truncated), with no two adjacent
whitespace characters and with all markup removed (no `<` remains). -/
theorem claim_C5 (net : Net) (feed_url : String) (cutoff : Int) (e : Entry)
    (h : e ∈ (fetch_feed_entries net feed_url cutoff).1) :
    e.summary.length ≤ 303 ∧ List.Chain' noWSPair e.summary.data ∧
      '<' ∉ e.summary.data := by
  have h2 : e ∈ (if ((net.feed feed_url).bozo && (net.feed feed_url).entries.isEmpty) = true
      then ([] : List Entry) else feedEntriesLoop cutoff (net.feed feed_url).entries) := h
  have hloop : ∃ raw ∈ (net.feed feed_url).entries, e = outputEntry raw := by
    by_cases hb : ((net.feed feed_url).bozo && (net.feed feed_url).entries.isEmpty) = true
    · rw [if_pos hb] at h2
      cases h2
    · rw [if_neg hb] at h2
      exact mem_feedEntriesLoop h2
  rcases hloop with ⟨raw, _, hout⟩
  rw [hout]
  exact ⟨clean_summary_length _, clean_summary_chain _, clean_summary_no_lt _⟩

/-- Claim C5, witness. -/
theorem claim_C5_witness :
    outputEntry rawC5 ∈ (fetch_feed_entries netC5 "http://x/feed" 0).1 ∧
      (outputEntry rawC5).summary.length ≤ 303 := by
  have hm : outputEntry rawC5 ∈ (fetch_feed_entries netC5 "http://x/feed" 0).1 :=
    List.mem_singleton.mpr rfl
  exact ⟨hm, (claim_C5 netC5 "http://x/feed" 0 (outputEntry rawC5) hm).1⟩

/-- The raw summary of claim C6: `"<p>Hello   world</p>" + "x" * 400`. -/
def rawSummaryC6 : String :=
  String.mk ("<p>Hello   world</p>".data ++ List.replicate 400 'x')

set_option maxRecDepth 8192 in
/-- Claim C6: cleaning the raw summary `"<p>Hello   world</p>" + "x" * 400`
produces exactly 303 characters ending in the ellipsis marker, with markup
removed and whitespace runs collapsed to single spaces; in general, cleaned
text longer than 300 characters is truncated to 300 characters plus the
ellipsis marker. -/
theorem claim_C6 :
    (clean_summary rawSummaryC6).length = 303 ∧
    "...".data.isSuffixOf (clean_summary rawSummaryC6).data = true ∧
    clean_summary rawSummaryC6 =
      String.mk ("Hello world ".data ++ List.replicate 288 'x' ++ ['.', '.', '.']) ∧
    (∀ s : String, 300 < (cleanedText s).length →
      clean_summary s = String.mk ((cleanedText s).take 300 ++ ['.', '.', '.'])) := by
  refine ⟨by decide, by decide, by decide, ?_⟩
  intro s h
  unfold clean_summary
  rw [if_pos h]

set_option maxRecDepth 8192 in
/-- Claim C6, witness for the general truncation clause. -/
theorem claim_C6_witness :
    300 < (cleanedText (String.mk (List.replicate 301 'a'))).length ∧
    clean_summary (String.mk (List.replicate 301 'a')) =
      String.mk ((cleanedText (String.mk (List.replicate 301 'a'))).take 300 ++
        ['.', '.', '.']) :=
  ⟨by decide, claim_C6.2.2.2 (String.mk (List.replicate 301 'a')) (by decide)⟩

/-! ## URL model: urlparse-lite, domain_of, should_skip
(crawl.py lines 28, 71-76)

Modelled from the spec: `urllib.parse.urlparse` is an out-of-scope
primitive; for the `scheme://netloc/path` URLs this crawler handles, the
scheme is everything before the first `://` and the netloc runs from there
to the first `/`, `?` or `#`. -/

/-- Split at the first `://`: `some (scheme, rest)`, or `none` when absent
(then `urlparse` yields an empty netloc). -/
def splitScheme : List Char → Option (List Char × List Char)
  | [] => none
  | c :: cs =>
    if c = ':' ∧ cs.take 2 = ['/', '/'] then some ([], cs.drop 2)
    else (splitScheme cs).map (fun p => (c :: p.1, p.2))

/-- Characters ending the netloc. -/
def urlDelim (c : Char) : Bool := c = '/' || c = '?' || c = '#'

/-- The netloc of a URL (empty when no `://` is present). -/
def netlocL (l : List Char) : List Char :=
  match splitScheme l with
  | none => []
  | some p => p.2.takeWhile (fun c => !urlDelim c)

/-- The scheme of a URL (empty when no `://` is present). -/
def schemeOf (url : String) : String :=
  match splitScheme url.data with
  | none => ""
  | some p => String.mk p.1

/-- Python `netloc.removeprefix("www.")`. -/
def stripWWW (l : List Char) : List Char :=
  if "www.".data.isPrefixOf l then l.drop 4 else l

/-- `domain_of` (crawl.py lines 71-72): netloc with a leading `www.`
stripped. -/
def domain_of (url : String) : String := String.mk (stripWWW (netlocL url.data))

/-- `SKIP_DOMAINS` (crawl.py line 28). -/
def SKIP_DOMAINS : List String := ["nitter.net"]

/-- `should_skip` (crawl.py lines 75-76). -/
def should_skip (url : String) : Bool := SKIP_DOMAINS.contains (domain_of url)

/-- `WELL_KNOWN_FEED_PATHS` (crawl.py line 30). -/
def WELL_KNOWN_FEED_PATHS : List String :=
  ["/feed", "/rss", "/rss.xml", "/atom.xml", "/feed.xml", "/index.xml"]

/-- `PLATFORM_FEED_PATTERNS` (crawl.py lines 33-36): platform host
fragment paired with its feed-URL construction rule. -/
def PLATFORM_FEED_PATTERNS : List (String × (String → String)) :=
  [("medium.com", fun url => rstripSlash url ++ "/feed"),
   ("substack.com", fun url => rstripSlash url ++ "/feed")]

/-! ## FeedLocator: the three discovery strategies
(crawl.py lines 79-151) -/

/-- Resolution of a relative `href` against scheme and netloc of the page
URL (crawl.py lines 94-98). -/
def resolveHref (url href : String) : String :=
  if startsWithL "/" href then
    schemeOf url ++ "://" ++ String.mk (netlocL url.data) ++ href
  else
    schemeOf url ++ "://" ++ String.mk (netlocL url.data) ++ "/" ++ href

/-- The `<link rel="alternate">` scan of `discover_feed_from_html`
(crawl.py lines 89-100): first tag whose lowered `type` contains `rss` or
`atom` and whose (resolved) `href` is non-empty wins. -/
def scanLinkTags (url : String) : List LinkTag → Option String
  | [] => none
  | tag :: rest =>
    let lt := pyLower (tag.ltype.getD "")
    if (containsSub "rss" lt || containsSub "atom" lt) = true then
      let href0 := tag.href.getD ""
      let href :=
        if href0 ≠ "" ∧ startsWithL "http" href0 = false then resolveHref url href0
        else href0
      if href ≠ "" then some href else scanLinkTags url rest
    else scanLinkTags url rest

/-- `discover_feed_from_html` (crawl.py lines 79-101): one GET; a fetch
failure fails the strategy silently. -/
def discover_feed_from_html (net : Net) (url : String) : Option String × List Call :=
  match net.get url with
  | none => (none, [Call.get url])
  | some tags => (scanLinkTags url tags, [Call.get url])

/-- The path loop of `discover_feed_well_known` (crawl.py lines 109-117):
HEAD each candidate; accept on status 200 with a content-type containing
`xml`, `rss` or `atom`; an exception or a non-matching response moves on. -/
def wkProbe (net : Net) (base : String) : List String → Option String × List Call
  | [] => (none, [])
  | p :: rest =>
    let feed_url := base ++ p
    match net.headReq feed_url with
    | none =>
      let r := wkProbe net base rest
      (r.1, Call.headReq feed_url :: r.2)
    | some resp =>
      let ct := pyLower resp.contentType
      if resp.status = 200 ∧
          (containsSub "xml" ct || containsSub "rss" ct || containsSub "atom" ct) = true then
        (some feed_url, [Call.headReq feed_url])
      else
        let r := wkProbe net base rest
        (r.1, Call.headReq feed_url :: r.2)

/-- `discover_feed_well_known` (crawl.py lines 104-119). -/
def discover_feed_well_known (net : Net) (url : String) : Option String × List Call :=
  wkProbe net (schemeOf url ++ "://" ++ String.mk (netlocL url.data)) WELL_KNOWN_FEED_PATHS

/-- The pattern loop of `discover_feed_platform` (crawl.py lines 124-134):
for each platform whose domain fragment occurs in the URL's domain, HEAD
the constructed candidate and accept it exactly on status 200; the
content-type is never examined. -/
def platformProbe (net : Net) (url : String) :
    List (String × (String → String)) → Option String × List Call
  | [] => (none, [])
  | (pd, rule) :: rest =>
    if containsSub pd (domain_of url) = true then
      let feed_url := rule url
      match net.headReq feed_url with
      | some resp =>
        if resp.status = 200 then (some feed_url, [Call.headReq feed_url])
        else
          let r := platformProbe net url rest
          (r.1, Call.headReq feed_url :: r.2)
      | none =>
        let r := platformProbe net url rest
        (r.1, Call.headReq feed_url :: r.2)
    else platformProbe net url rest

/-- `discover_feed_platform` (crawl.py lines 122-134). -/
def discover_feed_platform (net : Net) (url : String) : Option String × List Call :=
  platformProbe net url PLATFORM_FEED_PATTERNS

/-- `discover_feed` (crawl.py lines 137-151): HTML link discovery, then
platform patterns, then well-known paths; first success wins. -/
def discover_feed (net : Net) (url : String) : Option String × List Call :=
  match (discover_feed_from_html net url).1 with
  | some f => (some f, (discover_feed_from_html net url).2)
  | none =>
    match (discover_feed_platform net url).1 with
    | some f => (some f, (discover_feed_from_html net url).2 ++
        (discover_feed_platform net url).2)
    | none =>
      ((discover_feed_well_known net url).1,
       (discover_feed_from_html net url).2 ++ (discover_feed_platform net url).2 ++
         (discover_feed_well_known net url).2)

/-! ## SourceCrawler: crawl_source and the RSS-only loop
(crawl.py lines 198-268 and 307-337) -/

/-- `take_screenshot` (crawl.py lines 198-223): one capture attempt; the
oracle returns the saved path or `none` on any failure. -/
def take_screenshot (net : Net) (url : String) : Option String × List Call :=
  (net.shot url, [Call.shot url])

/-- The per-source crawl record (the `result` dict of crawl.py lines
228-235); `method` is `none` until something succeeds. -/
structure Record where
  name : String
  urls : List String
  method : Option String
  feed_url : Option String
  new_entries : List Entry
  screenshots : List String
  deriving DecidableEq, Repr

/-- The screenshot bookkeeping of crawl.py lines 259-263: on success append
the path and set `method` to `screenshot` only if still unset. -/
def applyShot (r : Record) (sp : Option String) : Record :=
  match sp with
  | some p =>
    { r with
      screenshots := r.screenshots ++ [p]
      method := if r.method.isNone then some "screenshot" else r.method }
  | none => r

/-- One URL iteration of `crawl_source` (crawl.py lines 237-263): skip a
blocked domain; try feed discovery; on a feed with entries record
`method="rss"`, the feed URL and the accumulated entries; otherwise fall
back to a screenshot. -/
def crawl_step (net : Net) (cutoff : Int) (r : Record) (url : String) :
    Record × List Call :=
  if should_skip url then (r, [])
  else
    match (discover_feed net url).1 with
    | some fu =>
      if ((fetch_feed_entries net fu cutoff).1).isEmpty then
        (applyShot r (take_screenshot net url).1,
         (discover_feed net url).2 ++ (fetch_feed_entries net fu cutoff).2 ++
           (take_screenshot net url).2)
      else
        ({ r with
            method := some "rss"
            feed_url := some fu
            new_entries := r.new_entries ++ (fetch_feed_entries net fu cutoff).1 },
         (discover_feed net url).2 ++ (fetch_feed_entries net fu cutoff).2)
    | none =>
      (applyShot r (take_screenshot net url).1,
       (discover_feed net url).2 ++ (take_screenshot net url).2)

/-- The URL loop of `crawl_source`. -/
def crawl_loop (net : Net) (cutoff : Int) (r : Record) : List String → Record × List Call
  | [] => (r, [])
  | u :: rest =>
    let step := crawl_step net cutoff r u
    let next := crawl_loop net cutoff step.1 rest
    (next.1, step.2 ++ next.2)

/-- The empty record a source's crawl starts from. -/
def initRecord (name : String) (urls : List String) : Record :=
  { name := name, urls := urls, method := none, feed_url := none,
    new_entries := [], screenshots := [] }

/-- `crawl_source` (crawl.py lines 226-268): run the URL loop, then default
`method` to `failed` if still unset. -/
def crawl_source (net : Net) (name : String) (urls : List String) (cutoff : Int) :
    Record × List Call :=
  let run := crawl_loop net cutoff (initRecord name urls) urls
  (if run.1.method.isNone then { run.1 with method := some "failed" } else run.1, run.2)

/-- One URL iteration of the RSS-only loop inlined in `main`
(crawl.py lines 317-334): identical feed logic, no screenshot step. -/
def rss_only_step (net : Net) (cutoff : Int) (r : Record) (url : String) :
    Record × List Call :=
  if should_skip url then (r, [])
  else
    match (discover_feed net url).1 with
    | some fu =>
      if ((fetch_feed_entries net fu cutoff).1).isEmpty then
        (r, (discover_feed net url).2 ++ (fetch_feed_entries net fu cutoff).2)
      else
        ({ r with
            method := some "rss"
            feed_url := some fu
            new_entries := r.new_entries ++ (fetch_feed_entries net fu cutoff).1 },
         (discover_feed net url).2 ++ (fetch_feed_entries net fu cutoff).2)
    | none => (r, (discover_feed net url).2)

/-- The URL loop of the RSS-only mode. -/
def rss_only_loop (net : Net) (cutoff : Int) (r : Record) :
    List String → Record × List Call
  | [] => (r, [])
  | u :: rest =>
    let step := rss_only_step net cutoff r u
    let next := rss_only_loop net cutoff step.1 rest
    (next.1, step.2 ++ next.2)

/-- The RSS-only crawl of one source (crawl.py lines 307-337): defaults
`method` to `no_feed` if still unset. -/
def crawl_source_rss_only (net : Net) (name : String) (urls : List String)
    (cutoff : Int) : Record × List Call :=
  let run := rss_only_loop net cutoff (initRecord name urls) urls
  (if run.1.method.isNone then { run.1 with method := some "no_feed" } else run.1, run.2)

/-! ## CrawlSession: record aggregation and summary counters
(crawl.py lines 301-358) -/

/-- The per-source dispatch of `main` (crawl.py lines 301-339): RSS-only
mode when `no_screenshots` is set, full mode otherwise. -/
def run_session (net : Net) (sources : List Source) (cutoff : Int)
    (no_screenshots : Bool) : List Record :=
  sources.map fun s =>
    if no_screenshots then (crawl_source_rss_only net s.name s.urls cutoff).1
    else (crawl_source net s.name s.urls cutoff).1

/-- `rss_count` (crawl.py line 355). -/
def rss_count (results : List Record) : Nat :=
  results.countP fun r => r.method == some "rss"

/-- `screenshot_count` (crawl.py line 356). -/
def screenshot_count (results : List Record) : Nat :=
  results.countP fun r => r.method == some "screenshot"

/-- `failed_count` (crawl.py line 357): records whose method is `failed`
or `no_feed`. -/
def failed_count (results : List Record) : Nat :=
  results.countP fun r => r.method == some "failed" || r.method == some "no_feed"

/-- `total_entries` (crawl.py line 358). -/
def total_entries (results : List Record) : Nat :=
  (results.map fun r => r.new_entries.length).sum

/-! ## Method invariants (for the SourceCrawler / CrawlSession claims) -/

theorem applyShot_method (r : Record) (sp : Option String) :
    (applyShot r sp).method = r.method ∨ (applyShot r sp).method = some "screenshot" := by
  cases sp with
  | none => exact Or.inl rfl
  | some p =>
    simp only [applyShot]
    by_cases hm : r.method.isNone = true
    · rw [if_pos hm]
      exact Or.inr rfl
    · rw [if_neg hm]
      exact Or.inl rfl

theorem crawl_step_method (net : Net) (cutoff : Int) (r : Record) (url : String) :
    (crawl_step net cutoff r url).1.method = r.method ∨
    (crawl_step net cutoff r url).1.method = some "rss" ∨
    (crawl_step net cutoff r url).1.method = some "screenshot" := by
  unfold crawl_step
  split
  · exact Or.inl rfl
  · split
    · split
      · rcases applyShot_method r (take_screenshot net url).1 with h | h
        · exact Or.inl h
        · exact Or.inr (Or.inr h)
      · exact Or.inr (Or.inl rfl)
    · rcases applyShot_method r (take_screenshot net url).1 with h | h
      · exact Or.inl h
      · exact Or.inr (Or.inr h)

theorem crawl_loop_method (net : Net) (cutoff : Int) (urls : List String) :
    ∀ r : Record,
      (crawl_loop net cutoff r urls).1.method = r.method ∨
      (crawl_loop net cutoff r urls).1.method = some "rss" ∨
      (crawl_loop net cutoff r urls).1.method = some "screenshot" := by
  induction urls with
  | nil => intro r; exact Or.inl rfl
  | cons u rest ih =>
    intro r
    have hstep :
        (crawl_loop net cutoff r (u :: rest)).1.method =
          (crawl_loop net cutoff (crawl_step net cutoff r u).1 rest).1.method := rfl
    rw [hstep]
    rcases ih (crawl_step net cutoff r u).1 with h | h | h
    · rw [h]
      exact crawl_step_method net cutoff r u
    · exact Or.inr (Or.inl h)
    · exact Or.inr (Or.inr h)

/-- The full-mode crawl always ends with method `rss`, `screenshot` or
`failed`. -/
theorem crawl_source_method (net : Net) (name : String) (urls : List String)
    (cutoff : Int) :
    (crawl_source net name urls cutoff).1.method = some "rss" ∨
    (crawl_source net name urls cutoff).1.method = some "screenshot" ∨
    (crawl_source net name urls cutoff).1.method = some "failed" := by
  simp only [crawl_source]
  by_cases hm : (crawl_loop net cutoff (initRecord name urls) urls).1.method.isNone = true
  · rw [if_pos hm]
    exact Or.inr (Or.inr rfl)
  · rw [if_neg hm]
    rcases crawl_loop_method net cutoff urls (initRecord name urls) with h | h | h
    · rw [h] at hm
      exact absurd rfl hm
    · exact Or.inl h
    · exact Or.inr (Or.inl h)

theorem rss_only_step_method (net : Net) (cutoff : Int) (r : Record) (url : String) :
    (rss_only_step net cutoff r url).1.method = r.method ∨
    (rss_only_step net cutoff r url).1.method = some "rss" := by
  unfold rss_only_step
  split
  · exact Or.inl rfl
  · split
    · split
      · exact Or.inl rfl
      · exact Or.inr rfl
    · exact Or.inl rfl

theorem rss_only_loop_method (net : Net) (cutoff : Int) (urls : List String) :
    ∀ r : Record,
      (rss_only_loop net cutoff r urls).1.method = r.method ∨
      (rss_only_loop net cutoff r urls).1.method = some "rss" := by
  induction urls with
  | nil => intro r; exact Or.inl rfl
  | cons u rest ih =>
    intro r
    have hstep :
        (rss_only_loop net cutoff r (u :: rest)).1.method =
          (rss_only_loop net cutoff (rss_only_step net cutoff r u).1 rest).1.method := rfl
    rw [hstep]
    rcases ih (rss_only_step net cutoff r u).1 with h | h
    · rw [h]
      exact rss_only_step_method net cutoff r u
    · exact Or.inr h

/-- The RSS-only crawl always ends with method `rss` or `no_feed`. -/
theorem crawl_source_rss_only_method (net : Net) (name : String)
    (urls : List String) (cutoff : Int) :
    (crawl_source_rss_only net name urls cutoff).1.method = some "rss" ∨
    (crawl_source_rss_only net name urls cutoff).1.method = some "no_feed" := by
  simp only [crawl_source_rss_only]
  by_cases hm : (rss_only_loop net cutoff (initRecord name urls) urls).1.method.isNone = true
  · rw [if_pos hm]
    exact Or.inr rfl
  · rw [if_neg hm]
    rcases rss_only_loop_method net cutoff urls (initRecord name urls) with h | h
    · rw [h] at hm
      exact absurd rfl hm
    · exact Or.inl h

/-- Claim C8: in both operating modes, the record of a source's crawl
always carries one of the four methods `rss`, `screenshot`, `failed`,
`no_feed` — never unset — for every oracle, source and cutoff, including a
source all of whose URLs are skip-listed. -/
theorem claim_C8 (net : Net) (name : String) (urls : List String) (cutoff : Int) :
    (crawl_source net name urls cutoff).1.method ∈
      [some "rss", some "screenshot", some "failed", some "no_feed"] ∧
    (crawl_source_rss_only net name urls cutoff).1.method ∈
      [some "rss", some "screenshot", some "failed", some "no_feed"] := by
  constructor
  · rcases crawl_source_method net name urls cutoff with h | h | h <;> simp [h]
  · rcases crawl_source_rss_only_method net name urls cutoff with h | h <;> simp [h]

theorem counts_partition (rs : List Record)
    (h : ∀ r ∈ rs, r.method = some "rss" ∨ r.method = some "screenshot" ∨
      r.method = some "failed" ∨ r.method = some "no_feed") :
    rss_count rs + screenshot_count rs + failed_count rs = rs.length := by
  induction rs with
  | nil => rfl
  | cons r rest ih =>
    have hr := h r (List.mem_cons_self r rest)
    have hrest := ih fun t ht => h t (List.mem_cons_of_mem r ht)
    simp only [rss_count, screenshot_count, failed_count, List.countP_cons,
      List.length_cons] at *
    rcases hr with hm | hm | hm | hm <;> simp [hm] <;> omega

/-- Claim C9: for every session run (both modes), the summary counters
partition the records — `rss_count + screenshot_count + failed_count`
equals the number of records — and the reported entry total is the sum of
the records' entry-list lengths. -/
theorem claim_C9 (net : Net) (sources : List Source) (cutoff : Int)
    (no_screenshots : Bool) :
    rss_count (run_session net sources cutoff no_screenshots) +
        screenshot_count (run_session net sources cutoff no_screenshots) +
        failed_count (run_session net sources cutoff no_screenshots) =
      (run_session net sources cutoff no_screenshots).length ∧
    total_entries (run_session net sources cutoff no_screenshots) =
      ((run_session net sources cutoff no_screenshots).map
        fun r => r.new_entries.length).sum := by
  refine ⟨?_, rfl⟩
  apply counts_partition
  intro r hr
  rcases List.mem_map.mp hr with ⟨s, _, hs⟩
  by_cases hm : no_screenshots = true
  · rw [hm] at hs
    simp only [if_pos rfl] at hs
    rcases crawl_source_rss_only_method net s.name s.urls cutoff with h | h
    · exact Or.inl (hs ▸ h)
    · exact Or.inr (Or.inr (Or.inr (hs ▸ h)))
  · rw [eq_false_of_ne_true hm] at hs
    simp only [Bool.false_eq_true, if_false] at hs
    rcases crawl_source_method net s.name s.urls cutoff with h | h | h
    · exact Or.inl (hs ▸ h)
    · exact Or.inr (Or.inl (hs ▸ h))
    · exact Or.inr (Or.inr (Or.inl (hs ▸ h)))

/-! ## The platform-pattern strategy (claim C3) -/

/-- The candidate feed URL both platform rules construct:
`url.rstrip("/") + "/feed"` (crawl.py lines 34-35). -/
def platformCandidate (url : String) : String := rstripSlash url ++ "/feed"

theorem discover_feed_platform_eval (net : Net) (url : String) :
    (discover_feed_platform net url).1 =
      if (containsSub "medium.com" (domain_of url) ||
          containsSub "substack.com" (domain_of url)) = true then
        match net.headReq (platformCandidate url) with
        | some resp => if resp.status = 200 then some (platformCandidate url) else none
        | none => none
      else none := by
  simp only [discover_feed_platform, PLATFORM_FEED_PATTERNS, platformProbe,
    platformCandidate]
  rcases hh : net.headReq (rstripSlash url ++ "/feed") with _ | resp
  · by_cases hm1 : containsSub "medium.com" (domain_of url) = true <;>
      by_cases hm2 : containsSub "substack.com" (domain_of url) = true <;>
      simp [hh, hm1, hm2]
  · by_cases hst : resp.status = 200 <;>
      by_cases hm1 : containsSub "medium.com" (domain_of url) = true <;>
      by_cases hm2 : containsSub "substack.com" (domain_of url) = true <;>
      simp [hh, hm1, hm2, hst]

/-- Claim C3, counterexample.  For a URL on a platform domain whose HEAD
probe answers 204 — a success (2xx) status — the strategy does NOT return
the candidate feed URL: the code accepts status 200 only. -/
def netC3 : Net :=
  { get := fun _ => none
    headReq := fun _ => some { status := 204, contentType := "" }
    feed := fun _ => { bozo := true, entries := [] }
    shot := fun _ => none }

theorem claim_C3_counterexample :
    (discover_feed_platform netC3 "https://blog.medium.com/post").1 = none ∧
    netC3.headReq (platformCandidate "https://blog.medium.com/post") =
      some { status := 204, contentType := "" } ∧
    (200 ≤ 204 ∧ 204 < 300) ∧
    containsSub "medium.com" (domain_of "https://blog.medium.com/post") = true := by
  exact ⟨by decide, rfl, by decide, by decide⟩

theorem platformProbe_status_congr (net net2 : Net) (url : String)
    (h : ∀ u, (net.headReq u).map HeadResp.status = (net2.headReq u).map HeadResp.status) :
    ∀ pats, platformProbe net url pats = platformProbe net2 url pats := by
  intro pats
  induction pats with
  | nil => rfl
  | cons pr rest ih =>
    rcases pr with ⟨pd, rule⟩
    simp only [platformProbe]
    by_cases hm : containsSub pd (domain_of url) = true
    · rw [if_pos hm, if_pos hm]
      have hu := h (rule url)
      cases h1 : net.headReq (rule url) with
      | none =>
        cases h2 : net2.headReq (rule url) with
        | none => simp [ih]
        | some r2 => rw [h1, h2] at hu; cases hu
      | some r1 =>
        cases h2 : net2.headReq (rule url) with
        | none => rw [h1, h2] at hu; cases hu
        | some r2 =>
          rw [h1, h2] at hu
          simp only [Option.map_some'] at hu
          have hst : r1.status = r2.status := Option.some.inj hu
          by_cases h200 : r1.status = 200
          · simp [← hst, h200, ih]
          · simp [← hst, h200, ih]
    · rw [if_neg hm, if_neg hm, ih]

/-- Claim C3, amended.  For every URL whose `www`-stripped host contains a
known platform domain, the platform strategy returns the constructed
candidate feed URL if and only if the HEAD request succeeds with status
exactly 200 — other 2xx statuses are rejected; the response content-type is
not examined by this strategy (the result depends on the HEAD oracle only
through its status). -/
theorem claim_C3 (net net2 : Net) (url : String)
    (hmatch : containsSub "medium.com" (domain_of url) = true ∨
      containsSub "substack.com" (domain_of url) = true) :
    ((discover_feed_platform net url).1 = some (platformCandidate url) ↔
      ∃ resp, net.headReq (platformCandidate url) = some resp ∧ resp.status = 200) ∧
    ((∀ u, (net.headReq u).map HeadResp.status = (net2.headReq u).map HeadResp.status) →
      discover_feed_platform net url = discover_feed_platform net2 url) := by
  constructor
  · rw [discover_feed_platform_eval]
    have hcond : (containsSub "medium.com" (domain_of url) ||
        containsSub "substack.com" (domain_of url)) = true := by
      rcases hmatch with h | h <;> simp [h]
    rw [if_pos hcond]
    rcases hh : net.headReq (platformCandidate url) with _ | resp
    · simp
    · by_cases hst : resp.status = 200 <;> simp [hst]
  · intro h
    exact platformProbe_status_congr net net2 url h PLATFORM_FEED_PATTERNS

/-- An oracle answering every HEAD with status 200. -/
def netC3w : Net :=
  { get := fun _ => none
    headReq := fun _ => some { status := 200, contentType := "" }
    feed := fun _ => { bozo := true, entries := [] }
    shot := fun _ => none }

/-- Claim C3, witness. -/
theorem claim_C3_witness :
    (containsSub "medium.com" (domain_of "https://me.medium.com") = true ∨
      containsSub "substack.com" (domain_of "https://me.medium.com") = true) ∧
    ((discover_feed_platform netC3w "https://me.medium.com").1 =
        some (platformCandidate "https://me.medium.com") ↔
      ∃ resp, netC3w.headReq (platformCandidate "https://me.medium.com") = some resp ∧
        resp.status = 200) :=
  ⟨Or.inl (by decide),
   (claim_C3 netC3w netC3w "https://me.medium.com" (Or.inl (by decide))).1⟩

/-! ## URL surgery lemmas (for the skip-list claim): the probe URLs built
by the well-known-path and platform strategies keep the page URL's host -/

theorem takeWhile_append_of_all {p : Char → Bool} {a : List Char} (b : List Char)
    (h : ∀ c ∈ a, p c = true) : (a ++ b).takeWhile p = a ++ b.takeWhile p := by
  induction a with
  | nil => rfl
  | cons x xs ih =>
    have hx := h x (List.mem_cons_self x xs)
    simp only [List.cons_append, List.takeWhile_cons, hx, if_true]
    rw [ih fun c hc => h c (List.mem_cons_of_mem x hc)]

theorem dropWhile_append_of_head {p : Char → Bool} (x : List Char) {y : List Char}
    {c : Char} (hy : y.head? = some c) (hc : p c = false) :
    (x ++ y).dropWhile p = x.dropWhile p ++ y := by
  induction x with
  | nil =>
    cases y with
    | nil => cases hy
    | cons d t =>
      simp only [List.head?_cons, Option.some.injEq] at hy
      subst hy
      simp [List.dropWhile_cons, hc]
  | cons a xs ih =>
    by_cases hp : p a = true
    · simp [List.dropWhile_cons, hp, ih]
    · simp [List.dropWhile_cons, hp]

theorem head_dropWhile_false {p : Char → Bool} (l : List Char) {c : Char}
    (h : (l.dropWhile p).head? = some c) : p c = false := by
  induction l with
  | nil => cases h
  | cons a t ih =>
    by_cases hp : p a = true
    · rw [List.dropWhile_cons, if_pos hp] at h
      exact ih h
    · rw [List.dropWhile_cons, if_neg hp] at h
      simp only [List.head?_cons, Option.some.injEq] at h
      subst h
      exact Bool.not_eq_true _ ▸ hp

theorem splitScheme_http (r : List Char) :
    splitScheme ('h' :: 't' :: 't' :: 'p' :: ':' :: '/' :: '/' :: r) =
      some (['h', 't', 't', 'p'], r) := by
  simp [splitScheme]

theorem splitScheme_https (r : List Char) :
    splitScheme ('h' :: 't' :: 't' :: 'p' :: 's' :: ':' :: '/' :: '/' :: r) =
      some (['h', 't', 't', 'p', 's'], r) := by
  simp [splitScheme]

theorem netlocL_http (r : List Char) :
    netlocL ('h' :: 't' :: 't' :: 'p' :: ':' :: '/' :: '/' :: r) =
      r.takeWhile (fun c => !urlDelim c) := by
  simp [netlocL, splitScheme_http]

theorem netlocL_https (r : List Char) :
    netlocL ('h' :: 't' :: 't' :: 'p' :: 's' :: ':' :: '/' :: '/' :: r) =
      r.takeWhile (fun c => !urlDelim c) := by
  simp [netlocL, splitScheme_https]

theorem url_split_http (u : String) (hu : startsWithL "http://" u = true) :
    ∃ r : List Char, u.data = 'h' :: 't' :: 't' :: 'p' :: ':' :: '/' :: '/' :: r := by
  unfold startsWithL at hu
  rcases List.isPrefixOf_iff_prefix.mp hu with ⟨t, ht⟩
  exact ⟨t, by rw [← ht]; rfl⟩

theorem url_split_https (u : String) (hu : startsWithL "https://" u = true) :
    ∃ r : List Char,
      u.data = 'h' :: 't' :: 't' :: 'p' :: 's' :: ':' :: '/' :: '/' :: r := by
  unfold startsWithL at hu
  rcases List.isPrefixOf_iff_prefix.mp hu with ⟨t, ht⟩
  exact ⟨t, by rw [← ht]; rfl⟩

theorem nl_all_not_delim (r : List Char) :
    ∀ c ∈ r.takeWhile (fun c => !urlDelim c), (!urlDelim c) = true := by
  intro c hc
  exact List.mem_takeWhile_imp (p := fun c => !urlDelim c) hc

theorem takeWhile_nl_append (r rest : List Char)
    (hrest : rest.takeWhile (fun c => !urlDelim c) = []) :
    (r.takeWhile (fun c => !urlDelim c) ++ rest).takeWhile (fun c => !urlDelim c) =
      r.takeWhile (fun c => !urlDelim c) := by
  rw [takeWhile_append_of_all rest (nl_all_not_delim r), hrest, List.append_nil]

theorem netlocL_wk_probe (u p : String) (SB r : List Char)
    (hd : u.data = SB ++ r)
    (hNL : ∀ x : List Char, netlocL (SB ++ x) = x.takeWhile (fun c => !urlDelim c))
    (hsch : (schemeOf u ++ "://").data = SB)
    (hp : p.data.takeWhile (fun c => !urlDelim c) = []) :
    netlocL ((schemeOf u ++ "://" ++ String.mk (netlocL u.data) ++ p).data) =
      netlocL u.data := by
  have hdata : (schemeOf u ++ "://" ++ String.mk (netlocL u.data) ++ p).data =
      SB ++ (netlocL u.data ++ p.data) := by
    rw [String.data_append, String.data_append, hsch, List.append_assoc]
  rw [hdata, hNL, hd, hNL]
  exact takeWhile_nl_append r p.data hp

theorem netlocL_platform_cand (u : String) (SB r : List Char)
    (hd : u.data = SB ++ r)
    (hNL : ∀ x : List Char, netlocL (SB ++ x) = x.takeWhile (fun c => !urlDelim c))
    (hnl : netlocL u.data ≠ []) :
    netlocL ((rstripSlash u ++ "/feed").data) = netlocL u.data := by
  have hnlr : netlocL u.data = r.takeWhile (fun c => !urlDelim c) := by
    rw [hd, hNL]
  set nl := r.takeWhile (fun c => !urlDelim c) with hnldef
  set path := r.dropWhile (fun c => !urlDelim c) with hpathdef
  have hr : r = nl ++ path := (List.takeWhile_append_dropWhile _ _).symm
  have hnlne : nl ≠ [] := by
    rw [hnlr] at hnl
    exact hnl
  obtain ⟨c0, t0, hnlrev⟩ : ∃ c0 t0, nl.reverse = c0 :: t0 := by
    cases h : nl.reverse with
    | nil => exact absurd (List.reverse_eq_nil_iff.mp h) hnlne
    | cons c0 t0 => exact ⟨c0, t0, rfl⟩
  have hc0mem : c0 ∈ nl := by
    rw [← List.mem_reverse, hnlrev]
    exact List.mem_cons_self _ _
  have hc0 : (!urlDelim c0) = true := nl_all_not_delim r c0 hc0mem
  have hc0slash : decide (c0 = '/') = false := by
    have hdel : urlDelim c0 = false := by
      cases h : urlDelim c0
      · rfl
      · rw [h] at hc0; cases hc0
    simp only [urlDelim] at hdel
    rcases Bool.or_eq_false_iff.mp hdel with ⟨h1, _⟩
    rcases Bool.or_eq_false_iff.mp h1 with ⟨h2, _⟩
    exact h2
  have hrev : u.data.reverse = path.reverse ++ (nl.reverse ++ SB.reverse) := by
    rw [hd, hr]
    simp [List.reverse_append, List.append_assoc]
  have hdrop : u.data.reverse.dropWhile (fun c => decide (c = '/')) =
      path.reverse.dropWhile (fun c => decide (c = '/')) ++ (nl.reverse ++ SB.reverse) := by
    rw [hrev]
    refine dropWhile_append_of_head _ ?_ hc0slash
    rw [hnlrev]
    rfl
  have hrstrip : (rstripSlash u).data =
      SB ++ (nl ++ (path.reverse.dropWhile (fun c => decide (c = '/'))).reverse) := by
    show (rstripSlashL u.data) = _
    unfold rstripSlashL
    rw [hdrop]
    simp [List.reverse_append]
  have hcand : (rstripSlash u ++ "/feed").data =
      SB ++ ((nl ++ ((path.reverse.dropWhile (fun c => decide (c = '/'))).reverse ++
        "/feed".data))) := by
    rw [String.data_append, hrstrip]
    simp [List.append_assoc]
  rw [hcand, hNL, hnlr]
  have htail : ((path.reverse.dropWhile (fun c => decide (c = '/'))).reverse ++
      "/feed".data).takeWhile (fun c => !urlDelim c) = [] := by
    cases hp' : (path.reverse.dropWhile (fun c => decide (c = '/'))).reverse with
    | nil => decide
    | cons c1 t1 =>
      have hpref : (path.reverse.dropWhile (fun c => decide (c = '/'))).reverse <+: path := by
        have := List.reverse_prefix.mpr (List.dropWhile_suffix
          (l := path.reverse) (fun c => decide (c = '/')))
        rwa [List.reverse_reverse] at this
      rcases hpref with ⟨t, ht⟩
      rw [hp'] at ht
      have hhead : (r.dropWhile (fun c => !urlDelim c)).head? = some c1 := by
        rw [← hpathdef, ← ht]
        rfl
      have hq1 : (!urlDelim c1) = false := head_dropWhile_false r hhead
      rw [List.cons_append, List.takeWhile_cons, hq1]
      simp
  rw [takeWhile_append_of_all _ (nl_all_not_delim r), htail, List.append_nil]

theorem domain_of_eq_of_netloc (a b : String) (h : netlocL a.data = netlocL b.data) :
    domain_of a = domain_of b := by
  unfold domain_of
  rw [h]

/-- Every well-known-path probe URL has the page URL's domain. -/
theorem domain_wk (u p : String)
    (hu : startsWithL "http://" u = true ∨ startsWithL "https://" u = true)
    (hp : p ∈ WELL_KNOWN_FEED_PATHS) :
    domain_of (schemeOf u ++ "://" ++ String.mk (netlocL u.data) ++ p) = domain_of u := by
  have hpdata : p.data.takeWhile (fun c => !urlDelim c) = [] := by
    fin_cases hp <;> decide
  apply domain_of_eq_of_netloc
  rcases hu with hu | hu
  · rcases url_split_http u hu with ⟨r, hd⟩
    have hsch : schemeOf u = String.mk ['h', 't', 't', 'p'] := by
      simp [schemeOf, hd, splitScheme_http]
    refine netlocL_wk_probe u p ['h', 't', 't', 'p', ':', '/', '/'] r hd
      (fun x => netlocL_http x) ?_ hpdata
    rw [String.data_append, hsch]
    rfl
  · rcases url_split_https u hu with ⟨r, hd⟩
    have hsch : schemeOf u = String.mk ['h', 't', 't', 'p', 's'] := by
      simp [schemeOf, hd, splitScheme_https]
    refine netlocL_wk_probe u p ['h', 't', 't', 'p', 's', ':', '/', '/'] r hd
      (fun x => netlocL_https x) ?_ hpdata
    rw [String.data_append, hsch]
    rfl

/-- The platform candidate URL has the page URL's domain whenever the page
URL has a non-empty netloc. -/
theorem domain_platform (u : String)
    (hu : startsWithL "http://" u = true ∨ startsWithL "https://" u = true)
    (hnl : netlocL u.data ≠ []) :
    domain_of (rstripSlash u ++ "/feed") = domain_of u := by
  apply domain_of_eq_of_netloc
  rcases hu with hu | hu
  · rcases url_split_http u hu with ⟨r, hd⟩
    exact netlocL_platform_cand u ['h', 't', 't', 'p', ':', '/', '/'] r hd
      (fun x => netlocL_http x) hnl
  · rcases url_split_https u hu with ⟨r, hd⟩
    exact netlocL_platform_cand u ['h', 't', 't', 'p', 's', ':', '/', '/'] r hd
      (fun x => netlocL_https x) hnl

/-- A domain that contains a platform fragment forces a non-empty netloc. -/
theorem netlocL_ne_nil_of_platform (u : String)
    (hm : containsSub "medium.com" (domain_of u) = true ∨
      containsSub "substack.com" (domain_of u) = true) :
    netlocL u.data ≠ [] := by
  intro h
  have hdom : domain_of u = String.mk [] := by
    unfold domain_of
    rw [h]
    rfl
  rw [hdom] at hm
  rcases hm with hm | hm <;> exact absurd hm (by decide)

/-! ## Call-trace lemmas: which URLs each strategy touches -/

theorem html_trace (net : Net) (url : String) :
    (discover_feed_from_html net url).2 = [Call.get url] := by
  unfold discover_feed_from_html
  cases net.get url <;> rfl

theorem platformProbe_trace (net : Net) (url : String) :
    ∀ pats, ∀ c ∈ (platformProbe net url pats).2,
      ∃ pr ∈ pats, containsSub pr.1 (domain_of url) = true ∧
        c = Call.headReq (pr.2 url) := by
  intro pats
  induction pats with
  | nil => intro c hc; cases hc
  | cons pr rest ih =>
    rcases pr with ⟨pd, rule⟩
    intro c hc
    simp only [platformProbe] at hc
    by_cases hm : containsSub pd (domain_of url) = true
    · rw [if_pos hm] at hc
      rcases hh : net.headReq (rule url) with _ | resp
      · rw [hh] at hc
        have hc2 : c ∈ Call.headReq (rule url) :: (platformProbe net url rest).2 := hc
        rcases List.mem_cons.mp hc2 with h | h
        · exact ⟨(pd, rule), List.mem_cons_self _ _, hm, h⟩
        · rcases ih c h with ⟨pr2, hpr, hprm, hpr2⟩
          exact ⟨pr2, List.mem_cons_of_mem _ hpr, hprm, hpr2⟩
      · rw [hh] at hc
        by_cases hst : resp.status = 200
        · have hc2 : c ∈ (if resp.status = 200 then
              ((some (rule url) : Option String), [Call.headReq (rule url)])
            else ((platformProbe net url rest).1,
              Call.headReq (rule url) :: (platformProbe net url rest).2)).2 := hc
          rw [if_pos hst] at hc2
          exact ⟨(pd, rule), List.mem_cons_self _ _, hm, List.mem_singleton.mp hc2⟩
        · have hc2 : c ∈ (if resp.status = 200 then
              ((some (rule url) : Option String), [Call.headReq (rule url)])
            else ((platformProbe net url rest).1,
              Call.headReq (rule url) :: (platformProbe net url rest).2)).2 := hc
          rw [if_neg hst] at hc2
          have hc3 : c ∈ Call.headReq (rule url) :: (platformProbe net url rest).2 := hc2
          rcases List.mem_cons.mp hc3 with h | h
          · exact ⟨(pd, rule), List.mem_cons_self _ _, hm, h⟩
          · rcases ih c h with ⟨pr2, hpr, hprm, hpr2⟩
            exact ⟨pr2, List.mem_cons_of_mem _ hpr, hprm, hpr2⟩
    · rw [if_neg hm] at hc
      rcases ih c hc with ⟨pr2, hpr, hprm, hpr2⟩
      exact ⟨pr2, List.mem_cons_of_mem _ hpr, hprm, hpr2⟩

theorem wkProbe_trace (net : Net) (base : String) :
    ∀ paths, ∀ c ∈ (wkProbe net base paths).2, ∃ p ∈ paths, c = Call.headReq (base ++ p) := by
  intro paths
  induction paths with
  | nil => intro c hc; cases hc
  | cons p rest ih =>
    intro c hc
    simp only [wkProbe] at hc
    rcases hh : net.headReq (base ++ p) with _ | resp
    · rw [hh] at hc
      have hc2 : c ∈ Call.headReq (base ++ p) :: (wkProbe net base rest).2 := hc
      rcases List.mem_cons.mp hc2 with h | h
      · exact ⟨p, List.mem_cons_self _ _, h⟩
      · rcases ih c h with ⟨p2, hp2, hc3⟩
        exact ⟨p2, List.mem_cons_of_mem _ hp2, hc3⟩
    · rw [hh] at hc
      by_cases hcond : resp.status = 200 ∧
          (containsSub "xml" (pyLower resp.contentType) ||
            containsSub "rss" (pyLower resp.contentType) ||
            containsSub "atom" (pyLower resp.contentType)) = true
      · have hc2 : c ∈ (if resp.status = 200 ∧
            (containsSub "xml" (pyLower resp.contentType) ||
              containsSub "rss" (pyLower resp.contentType) ||
              containsSub "atom" (pyLower resp.contentType)) = true then
            ((some (base ++ p) : Option String), [Call.headReq (base ++ p)])
          else ((wkProbe net base rest).1,
            Call.headReq (base ++ p) :: (wkProbe net base rest).2)).2 := hc
        rw [if_pos hcond] at hc2
        exact ⟨p, List.mem_cons_self _ _, List.mem_singleton.mp hc2⟩
      · have hc2 : c ∈ (if resp.status = 200 ∧
            (containsSub "xml" (pyLower resp.contentType) ||
              containsSub "rss" (pyLower resp.contentType) ||
              containsSub "atom" (pyLower resp.contentType)) = true then
            ((some (base ++ p) : Option String), [Call.headReq (base ++ p)])
          else ((wkProbe net base rest).1,
            Call.headReq (base ++ p) :: (wkProbe net base rest).2)).2 := hc
        rw [if_neg hcond] at hc2
        have hc3 : c ∈ Call.headReq (base ++ p) :: (wkProbe net base rest).2 := hc2
        rcases List.mem_cons.mp hc3 with h | h
        · exact ⟨p, List.mem_cons_self _ _, h⟩
        · rcases ih c h with ⟨p2, hp2, hc4⟩
          exact ⟨p2, List.mem_cons_of_mem _ hp2, hc4⟩

theorem discover_trace (net : Net) (url : String) :
    ∀ c ∈ (discover_feed net url).2,
      c = Call.get url ∨
      c ∈ (discover_feed_platform net url).2 ∨
      c ∈ (discover_feed_well_known net url).2 := by
  intro c hc
  unfold discover_feed at hc
  rcases h1 : (discover_feed_from_html net url).1 with _ | f
  · rw [h1] at hc
    rcases h2 : (discover_feed_platform net url).1 with _ | f2
    · rw [h2] at hc
      have hc2 : c ∈ (discover_feed_from_html net url).2 ++
          (discover_feed_platform net url).2 ++ (discover_feed_well_known net url).2 := hc
      rw [html_trace] at hc2
      rcases List.mem_append.mp hc2 with h | h
      · rcases List.mem_append.mp h with h | h
        · exact Or.inl (List.mem_singleton.mp h)
        · exact Or.inr (Or.inl h)
      · exact Or.inr (Or.inr h)
    · rw [h2] at hc
      have hc2 : c ∈ (discover_feed_from_html net url).2 ++
          (discover_feed_platform net url).2 := hc
      rw [html_trace] at hc2
      rcases List.mem_append.mp hc2 with h | h
      · exact Or.inl (List.mem_singleton.mp h)
      · exact Or.inr (Or.inl h)
  · rw [h1] at hc
    have hc2 : c ∈ (discover_feed_from_html net url).2 := hc
    rw [html_trace] at hc2
    exact Or.inl (List.mem_singleton.mp hc2)

/-- Every URL the discovery strategies pass to GET or HEAD for a
non-skipped `http(s)://` page URL is itself outside the skip-list. -/
theorem discover_calls (net : Net) (url : String)
    (hu : startsWithL "http://" url = true ∨ startsWithL "https://" url = true)
    (hs : should_skip url = false) :
    ∀ c ∈ (discover_feed net url).2, should_skip (Call.url c) = false := by
  intro c hc
  rcases discover_trace net url c hc with h | h | h
  · rw [h]
    exact hs
  · rcases platformProbe_trace net url PLATFORM_FEED_PATTERNS c h with ⟨pr, hpr, hm, hcall⟩
    have hpr2 : pr = ("medium.com", fun u => rstripSlash u ++ "/feed") ∨
        pr = ("substack.com", fun u => rstripSlash u ++ "/feed") := by
      rcases List.mem_cons.mp hpr with h2 | h2
      · exact Or.inl h2
      · exact Or.inr (List.mem_singleton.mp h2)
    have hnl : netlocL url.data ≠ [] := by
      apply netlocL_ne_nil_of_platform url
      rcases hpr2 with h2 | h2
      · rw [h2] at hm
        exact Or.inl hm
      · rw [h2] at hm
        exact Or.inr hm
    have hdom := domain_platform url hu hnl
    rw [hcall]
    have hc2 : Call.url (Call.headReq (pr.2 url)) = pr.2 url := rfl
    rw [hc2]
    have hval : pr.2 url = rstripSlash url ++ "/feed" := by
      rcases hpr2 with h2 | h2 <;> rw [h2]
    rw [hval]
    unfold should_skip
    rw [hdom]
    exact hs
  · have h2 : c ∈ (wkProbe net
        (schemeOf url ++ "://" ++ String.mk (netlocL url.data))
        WELL_KNOWN_FEED_PATHS).2 := h
    rcases wkProbe_trace net _ WELL_KNOWN_FEED_PATHS c h2 with ⟨p, hp, hcall⟩
    rw [hcall]
    have hc2 : Call.url (Call.headReq
        (schemeOf url ++ "://" ++ String.mk (netlocL url.data) ++ p)) =
      schemeOf url ++ "://" ++ String.mk (netlocL url.data) ++ p := rfl
    rw [hc2]
    unfold should_skip
    rw [domain_wk url p hu hp]
    exact hs

theorem crawl_step_calls (net : Net) (cutoff : Int) (r : Record) (u : String)
    (hu : startsWithL "http://" u = true ∨ startsWithL "https://" u = true) :
    ∀ c ∈ (crawl_step net cutoff r u).2,
      c.isFeedReq = true ∨ should_skip (Call.url c) = false := by
  intro c hc
  unfold crawl_step at hc
  by_cases hs : should_skip u = true
  · rw [if_pos hs] at hc
    cases hc
  · rw [if_neg hs] at hc
    have hs' : should_skip u = false := by
      cases h : should_skip u
      · rfl
      · exact absurd h hs
    rcases hd : (discover_feed net u).1 with _ | fu
    · rw [hd] at hc
      have hc2 : c ∈ (discover_feed net u).2 ++ (take_screenshot net u).2 := hc
      rcases List.mem_append.mp hc2 with h | h
      · exact Or.inr (discover_calls net u hu hs' c h)
      · have hcs : c = Call.shot u := List.mem_singleton.mp h
        right
        rw [hcs]
        exact hs'
    · rw [hd] at hc
      have hc0 : c ∈ (if ((fetch_feed_entries net fu cutoff).1).isEmpty = true then
          (applyShot r (take_screenshot net u).1,
            (discover_feed net u).2 ++ (fetch_feed_entries net fu cutoff).2 ++
              (take_screenshot net u).2)
        else
          ({ r with
              method := some "rss"
              feed_url := some fu
              new_entries := r.new_entries ++ (fetch_feed_entries net fu cutoff).1 },
            (discover_feed net u).2 ++ (fetch_feed_entries net fu cutoff).2)).2 := hc
      by_cases he : ((fetch_feed_entries net fu cutoff).1).isEmpty = true
      · rw [if_pos he] at hc0
        have hc2 : c ∈ (discover_feed net u).2 ++ (fetch_feed_entries net fu cutoff).2 ++
            (take_screenshot net u).2 := hc0
        rcases List.mem_append.mp hc2 with h | h
        · rcases List.mem_append.mp h with h | h
          · exact Or.inr (discover_calls net u hu hs' c h)
          · have hcf : c = Call.feedReq fu := List.mem_singleton.mp h
            left
            rw [hcf]
            rfl
        · have hcs : c = Call.shot u := List.mem_singleton.mp h
          right
          rw [hcs]
          exact hs'
      · rw [if_neg he] at hc0
        have hc2 : c ∈ (discover_feed net u).2 ++ (fetch_feed_entries net fu cutoff).2 := hc0
        rcases List.mem_append.mp hc2 with h | h
        · exact Or.inr (discover_calls net u hu hs' c h)
        · have hcf : c = Call.feedReq fu := List.mem_singleton.mp h
          left
          rw [hcf]
          rfl

theorem crawl_loop_calls (net : Net) (cutoff : Int) :
    ∀ (urls : List String) (r : Record),
      (∀ u ∈ urls, startsWithL "http://" u = true ∨ startsWithL "https://" u = true) →
      ∀ c ∈ (crawl_loop net cutoff r urls).2,
        c.isFeedReq = true ∨ should_skip (Call.url c) = false := by
  intro urls
  induction urls with
  | nil => intro r _ c hc; cases hc
  | cons u rest ih =>
    intro r hu c hc
    have hc2 : c ∈ (crawl_step net cutoff r u).2 ++
        (crawl_loop net cutoff (crawl_step net cutoff r u).1 rest).2 := hc
    rcases List.mem_append.mp hc2 with h | h
    · exact crawl_step_calls net cutoff r u (hu u (List.mem_cons_self u rest)) c h
    · exact ih _ (fun v hv => hu v (List.mem_cons_of_mem u hv)) c h

theorem rss_only_step_calls (net : Net) (cutoff : Int) (r : Record) (u : String)
    (hu : startsWithL "http://" u = true ∨ startsWithL "https://" u = true) :
    ∀ c ∈ (rss_only_step net cutoff r u).2,
      c.isFeedReq = true ∨ should_skip (Call.url c) = false := by
  intro c hc
  unfold rss_only_step at hc
  by_cases hs : should_skip u = true
  · rw [if_pos hs] at hc
    cases hc
  · rw [if_neg hs] at hc
    have hs' : should_skip u = false := by
      cases h : should_skip u
      · rfl
      · exact absurd h hs
    rcases hd : (discover_feed net u).1 with _ | fu
    · rw [hd] at hc
      exact Or.inr (discover_calls net u hu hs' c hc)
    · rw [hd] at hc
      have hc0 : c ∈ (if ((fetch_feed_entries net fu cutoff).1).isEmpty = true then
          (r, (discover_feed net u).2 ++ (fetch_feed_entries net fu cutoff).2)
        else
          ({ r with
              method := some "rss"
              feed_url := some fu
              new_entries := r.new_entries ++ (fetch_feed_entries net fu cutoff).1 },
            (discover_feed net u).2 ++ (fetch_feed_entries net fu cutoff).2)).2 := hc
      by_cases he : ((fetch_feed_entries net fu cutoff).1).isEmpty = true
      · rw [if_pos he] at hc0
        have hc2 : c ∈ (discover_feed net u).2 ++ (fetch_feed_entries net fu cutoff).2 := hc0
        rcases List.mem_append.mp hc2 with h | h
        · exact Or.inr (discover_calls net u hu hs' c h)
        · have hcf : c = Call.feedReq fu := List.mem_singleton.mp h
          left
          rw [hcf]
          rfl
      · rw [if_neg he] at hc0
        have hc2 : c ∈ (discover_feed net u).2 ++ (fetch_feed_entries net fu cutoff).2 := hc0
        rcases List.mem_append.mp hc2 with h | h
        · exact Or.inr (discover_calls net u hu hs' c h)
        · have hcf : c = Call.feedReq fu := List.mem_singleton.mp h
          left
          rw [hcf]
          rfl

theorem rss_only_loop_calls (net : Net) (cutoff : Int) :
    ∀ (urls : List String) (r : Record),
      (∀ u ∈ urls, startsWithL "http://" u = true ∨ startsWithL "https://" u = true) →
      ∀ c ∈ (rss_only_loop net cutoff r urls).2,
        c.isFeedReq = true ∨ should_skip (Call.url c) = false := by
  intro urls
  induction urls with
  | nil => intro r _ c hc; cases hc
  | cons u rest ih =>
    intro r hu c hc
    have hc2 : c ∈ (rss_only_step net cutoff r u).2 ++
        (rss_only_loop net cutoff (rss_only_step net cutoff r u).1 rest).2 := hc
    rcases List.mem_append.mp hc2 with h | h
    · exact rss_only_step_calls net cutoff r u (hu u (List.mem_cons_self u rest)) c h
    · exact ih _ (fun v hv => hu v (List.mem_cons_of_mem u hv)) c h

/-- Claim C4, counterexample.  A skip-listed URL CAN be passed to a
network fetch: when the HTML of a non-skipped page advertises a feed on
`nitter.net`, the crawl passes that feed URL to the feed retrieval
(`feedparser.parse`) without re-checking the skip-list. -/
def netC4x : Net :=
  { get := fun u =>
      if u = "https://ok.example/" then
        some [{ ltype := some "application/rss+xml", href := some "https://nitter.net/rss" }]
      else none
    headReq := fun _ => none
    feed := fun _ => { bozo := false, entries := [] }
    shot := fun _ => none }

theorem claim_C4_counterexample :
    Call.feedReq "https://nitter.net/rss" ∈
      (crawl_source netC4x "S" ["https://ok.example/"] 0).2 ∧
    should_skip "https://nitter.net/rss" = true := by
  constructor
  · decide
  · decide

/-- Claim C4, amended.  For every catalog-parsed source and every cutoff,
in both operating modes, every network call of the source's crawl that is
a GET, a HEAD probe or a screenshot capture carries a URL whose
`www`-stripped host is outside the skip-list; only the feed-retrieval call
(`feedparser.parse` on a discovered feed URL) is not re-checked and may
carry a skip-listed host. -/
theorem claim_C4 (lines : List String) (net : Net) (cutoff : Int) (src : Source)
    (hsrc : src ∈ parse_links_file lines) :
    (∀ c ∈ (crawl_source net src.name src.urls cutoff).2,
      c.isFeedReq = true ∨ should_skip (Call.url c) = false) ∧
    (∀ c ∈ (crawl_source_rss_only net src.name src.urls cutoff).2,
      c.isFeedReq = true ∨ should_skip (Call.url c) = false) := by
  have hfmt : ∀ u ∈ src.urls,
      startsWithL "http://" u = true ∨ startsWithL "https://" u = true := by
    intro u hu
    have hurl := parse_links_file_urls lines src hsrc u hu
    unfold isUrlLine at hurl
    exact (Bool.or_eq_true _ _).mp hurl
  constructor
  · intro c hc
    have hc2 : c ∈ (crawl_loop net cutoff (initRecord src.name src.urls) src.urls).2 := hc
    exact crawl_loop_calls net cutoff src.urls _ hfmt c hc2
  · intro c hc
    have hc2 : c ∈ (rss_only_loop net cutoff (initRecord src.name src.urls) src.urls).2 := hc
    exact rss_only_loop_calls net cutoff src.urls _ hfmt c hc2

/-- The source and quiet oracle of the claim C4 witness. -/
def srcC4 : Source := { name := "Blog", urls := ["https://ok.example/"] }

def netC4w : Net :=
  { get := fun _ => none
    headReq := fun _ => none
    feed := fun _ => { bozo := true, entries := [] }
    shot := fun _ => none }

/-- Claim C4, witness. -/
theorem claim_C4_witness :
    srcC4 ∈ parse_links_file ["Blog", "https://ok.example/"] ∧
    Call.get "https://ok.example/" ∈ (crawl_source netC4w srcC4.name srcC4.urls 0).2 ∧
    ((Call.get "https://ok.example/").isFeedReq = true ∨
      should_skip (Call.url (Call.get "https://ok.example/")) = false) :=
  ⟨by decide, by decide,
   (claim_C4 ["Blog", "https://ok.example/"] netC4w 0 srcC4 (by decide)).1
     (Call.get "https://ok.example/") (by decide)⟩

/-! ## Per-URL accumulation (claims C7 and C10) -/

theorem crawl_step_eval_found (net : Net) (cutoff : Int) (r : Record) (url fu : String)
    (hs : should_skip url = false) (hd : (discover_feed net url).1 = some fu) :
    crawl_step net cutoff r url =
      (if ((fetch_feed_entries net fu cutoff).1).isEmpty = true then
        (applyShot r (take_screenshot net url).1,
         (discover_feed net url).2 ++ (fetch_feed_entries net fu cutoff).2 ++
           (take_screenshot net url).2)
      else
        ({ r with
            method := some "rss"
            feed_url := some fu
            new_entries := r.new_entries ++ (fetch_feed_entries net fu cutoff).1 },
         (discover_feed net url).2 ++ (fetch_feed_entries net fu cutoff).2)) := by
  unfold crawl_step
  rw [if_neg (by simp [hs]), hd]

theorem crawl_step_rss (net : Net) (cutoff : Int) (r : Record) (url fu : String)
    (hs : should_skip url = false) (hd : (discover_feed net url).1 = some fu)
    (hne : ((fetch_feed_entries net fu cutoff).1).isEmpty = false) :
    (crawl_step net cutoff r url).1 =
      { r with
        method := some "rss"
        feed_url := some fu
        new_entries := r.new_entries ++ (fetch_feed_entries net fu cutoff).1 } := by
  rw [crawl_step_eval_found net cutoff r url fu hs hd, if_neg (by simp [hne])]

/-- Claim C7: a source with two non-skipped URLs whose feeds contribute 2
and 1 entries at/after the cutoff crawls to a record with `method="rss"`
and exactly 3 entries, concatenated in URL-processing order — a successful
RSS hit on the first URL does not stop processing of the second. -/
theorem claim_C7 (net : Net) (name u1 u2 f1 f2 : String) (cutoff : Int)
    (hs1 : should_skip u1 = false) (hs2 : should_skip u2 = false)
    (hd1 : (discover_feed net u1).1 = some f1)
    (hd2 : (discover_feed net u2).1 = some f2)
    (he1 : (fetch_feed_entries net f1 cutoff).1.length = 2)
    (he2 : (fetch_feed_entries net f2 cutoff).1.length = 1) :
    (crawl_source net name [u1, u2] cutoff).1.method = some "rss" ∧
    (crawl_source net name [u1, u2] cutoff).1.new_entries =
      (fetch_feed_entries net f1 cutoff).1 ++ (fetch_feed_entries net f2 cutoff).1 ∧
    (crawl_source net name [u1, u2] cutoff).1.new_entries.length = 3 := by
  have hne1 : ((fetch_feed_entries net f1 cutoff).1).isEmpty = false := by
    cases h : ((fetch_feed_entries net f1 cutoff).1).isEmpty
    · rfl
    · rw [List.isEmpty_iff.mp h] at he1
      simp at he1
  have hne2 : ((fetch_feed_entries net f2 cutoff).1).isEmpty = false := by
    cases h : ((fetch_feed_entries net f2 cutoff).1).isEmpty
    · rfl
    · rw [List.isEmpty_iff.mp h] at he2
      simp at he2
  have hstep1 := crawl_step_rss net cutoff (initRecord name [u1, u2]) u1 f1 hs1 hd1 hne1
  have hstep2 := crawl_step_rss net cutoff
    (crawl_step net cutoff (initRecord name [u1, u2]) u1).1 u2 f2 hs2 hd2 hne2
  have hloop : (crawl_loop net cutoff (initRecord name [u1, u2]) [u1, u2]).1 =
      (crawl_step net cutoff (crawl_step net cutoff (initRecord name [u1, u2]) u1).1 u2).1 :=
    rfl
  have hfin : (crawl_loop net cutoff (initRecord name [u1, u2]) [u1, u2]).1 =
      { initRecord name [u1, u2] with
        method := some "rss"
        feed_url := some f2
        new_entries := ((initRecord name [u1, u2]).new_entries ++
          (fetch_feed_entries net f1 cutoff).1) ++ (fetch_feed_entries net f2 cutoff).1 } := by
    rw [hloop, hstep2, hstep1]
  have hcs : (crawl_source net name [u1, u2] cutoff).1 =
      { initRecord name [u1, u2] with
        method := some "rss"
        feed_url := some f2
        new_entries := ((initRecord name [u1, u2]).new_entries ++
          (fetch_feed_entries net f1 cutoff).1) ++ (fetch_feed_entries net f2 cutoff).1 } := by
    simp only [crawl_source]
    rw [hfin]
    rfl
  refine ⟨by rw [hcs], ?_, ?_⟩
  · rw [hcs]
    show ([] ++ (fetch_feed_entries net f1 cutoff).1) ++ (fetch_feed_entries net f2 cutoff).1 =
      (fetch_feed_entries net f1 cutoff).1 ++ (fetch_feed_entries net f2 cutoff).1
    rw [List.nil_append]
  · rw [hcs]
    show (([] ++ (fetch_feed_entries net f1 cutoff).1) ++
      (fetch_feed_entries net f2 cutoff).1).length = 3
    rw [List.nil_append, List.length_append, he1, he2]

/-- Raw entries and oracle of the claim C7 witness. -/
def rawA : FeedEntryRaw :=
  { title := some "A", link := some "https://one.example/a",
    published_parsed := some (some 100), updated_parsed := none, summary := some "a" }

def rawB : FeedEntryRaw :=
  { title := some "B", link := some "https://one.example/b",
    published_parsed := some (some 200), updated_parsed := none, summary := some "b" }

def rawC : FeedEntryRaw :=
  { title := some "C", link := some "https://two.example/c",
    published_parsed := some (some 300), updated_parsed := none, summary := some "c" }

def netC7 : Net :=
  { get := fun u =>
      if u = "https://one.example/" then
        some [{ ltype := some "application/rss+xml", href := some "https://one.example/rss" }]
      else if u = "https://two.example/" then
        some [{ ltype := some "application/atom+xml", href := some "https://two.example/rss" }]
      else none
    headReq := fun _ => none
    feed := fun u =>
      if u = "https://one.example/rss" then { bozo := false, entries := [rawA, rawB] }
      else if u = "https://two.example/rss" then { bozo := false, entries := [rawC] }
      else { bozo := true, entries := [] }
    shot := fun _ => none }

/-- Claim C7, witness. -/
theorem claim_C7_witness :
    should_skip "https://one.example/" = false ∧
    should_skip "https://two.example/" = false ∧
    (discover_feed netC7 "https://one.example/").1 = some "https://one.example/rss" ∧
    (discover_feed netC7 "https://two.example/").1 = some "https://two.example/rss" ∧
    (fetch_feed_entries netC7 "https://one.example/rss" 0).1.length = 2 ∧
    (fetch_feed_entries netC7 "https://two.example/rss" 0).1.length = 1 ∧
    (crawl_source netC7 "S" ["https://one.example/", "https://two.example/"] 0).1.method =
      some "rss" ∧
    (crawl_source netC7 "S"
      ["https://one.example/", "https://two.example/"] 0).1.new_entries.length = 3 :=
  ⟨by decide, by decide, by decide, by decide, by decide, by decide,
   (claim_C7 netC7 "S" "https://one.example/" "https://two.example/"
     "https://one.example/rss" "https://two.example/rss" 0
     (by decide) (by decide) (by decide) (by decide) (by decide) (by decide)).1,
   (claim_C7 netC7 "S" "https://one.example/" "https://two.example/"
     "https://one.example/rss" "https://two.example/rss" 0
     (by decide) (by decide) (by decide) (by decide) (by decide) (by decide)).2.2⟩

/-- Claim C10: in full mode, a non-skipped URL whose discovered feed yields
zero entries at/after the cutoff still gets a screenshot capture attempt —
the screenshot fallback is not limited to URLs where no feed was found. -/
theorem claim_C10 (net : Net) (name : String) (urls : List String) (cutoff : Int)
    (u f : String) (hu : u ∈ urls) (hs : should_skip u = false)
    (hd : (discover_feed net u).1 = some f)
    (he : (fetch_feed_entries net f cutoff).1 = []) :
    Call.shot u ∈ (crawl_source net name urls cutoff).2 := by
  have hof : ∀ (us : List String) (r : Record), u ∈ us →
      Call.shot u ∈ (crawl_loop net cutoff r us).2 := by
    intro us
    induction us with
    | nil => intro r h; cases h
    | cons v rest ih =>
      intro r hmem
      have hsplit : (crawl_loop net cutoff r (v :: rest)).2 =
          (crawl_step net cutoff r v).2 ++
            (crawl_loop net cutoff (crawl_step net cutoff r v).1 rest).2 := rfl
      rw [hsplit]
      rcases List.mem_cons.mp hmem with hv | hv
      · subst hv
        refine List.mem_append.mpr (Or.inl ?_)
        have hisE : ((fetch_feed_entries net f cutoff).1).isEmpty = true := by
          rw [he]
          rfl
        have h1 : (crawl_step net cutoff r u).2 =
            (discover_feed net u).2 ++ (fetch_feed_entries net f cutoff).2 ++
              (take_screenshot net u).2 := by
          rw [crawl_step_eval_found net cutoff r u f hs hd, if_pos hisE]
        rw [h1]
        refine List.mem_append.mpr (Or.inr ?_)
        exact List.mem_singleton.mpr rfl
      · exact List.mem_append.mpr (Or.inr (ih _ hv))
  exact hof urls (initRecord name urls) hu

/-- A raw feed entry that predates the cutoff of the claim C10 witness. -/
def rawOld : FeedEntryRaw :=
  { title := some "Old", link := some "https://s.example/a",
    published_parsed := some (some (-5)), updated_parsed := none, summary := some "o" }

/-- Oracle of the claim C10 witness: a feed is discovered but its only
entry predates the cutoff. -/
def netC10 : Net :=
  { get := fun u =>
      if u = "https://s.example/" then
        some [{ ltype := some "rss", href := some "https://s.example/feed.xml" }]
      else none
    headReq := fun _ => none
    feed := fun u =>
      if u = "https://s.example/feed.xml" then { bozo := false, entries := [rawOld] }
      else { bozo := true, entries := [] }
    shot := fun _ => some "data/screenshots/s.example_x.png" }

/-- Claim C10, witness. -/
theorem claim_C10_witness :
    "https://s.example/" ∈ ["https://s.example/"] ∧
    should_skip "https://s.example/" = false ∧
    (discover_feed netC10 "https://s.example/").1 = some "https://s.example/feed.xml" ∧
    (fetch_feed_entries netC10 "https://s.example/feed.xml" 0).1 = [] ∧
    Call.shot "https://s.example/" ∈ (crawl_source netC10 "S" ["https://s.example/"] 0).2 :=
  ⟨by decide, by decide, by decide, by decide,
   claim_C10 netC10 "S" ["https://s.example/"] 0 "https://s.example/"
     "https://s.example/feed.xml" (by decide) (by decide) (by decide) (by decide)⟩

end ReadNext
